import Mathlib

/-!
Verification of the value-to-buffer normalization core of `vscode-helpers`
(`src/index.ts`): the completion guard (`createCompletedAction`), the value
normalizer (`asBuffer` / `asBufferInner`), the stream aggregator (`readAll`),
and the argument/option normalization of `execFile`.

The embedding is shallow: JavaScript runtime values are modelled by the
inductive `JSValue`, exceptions by `Except Unit`, promise outcomes of the
normalizer by `NormOutcome`, and the event-driven stream/guard code by
explicit state machines folded over event lists.  External collaborators
(lodash predicates, Node's `Buffer` byte-encoding table, JSON/`toString`
semantics of host objects) are modelled on the value shapes exercised by the
theorems; each such modelling choice is noted at the definition it concerns.
-/

set_option autoImplicit false

namespace VscodeHelpers

/-- A chunk delivered by a readable stream's `data` event: either a byte
buffer or a textual (string) chunk, mirroring the `Buffer | string` type of
the `data` listener in `readAll`. -/
inductive Chunk where
  | bytes (l : List Nat)
  | text (s : String)
  deriving DecidableEq

/-- JS `chunk.length`: byte count for buffers, character count for strings.
Only its zero test is used by the code (`chunk.length < 1`), on which the
model agrees with JS string length. -/
def Chunk.len : Chunk → Nat
  | .bytes l => l.length
  | .text s => s.length

/-- An event emitted by a readable stream, in delivery order.  An `errorEv`
carries `some e` for a truthy error value `e` and `none` for a falsy error
argument (the `errorListener` in `readAll` tests `if (err)`). -/
inductive StreamEvent where
  | data (c : Chunk)
  | endEv
  | errorEv (err : Option String)
  deriving DecidableEq

/-- The failure surfaced by the stream aggregator: either the error value the
stream emitted (passed through unchanged) or an exception raised while
appending/encoding a chunk inside the `data` listener. -/
inductive StreamErr where
  | emitted (e : String)
  | appendFailed
  deriving DecidableEq

/-- Model of a plain JS object as seen by `toStringSafe` / `JSON.stringify`:
`toStr` is the outcome of calling the object's `toString` method (`none` when
the object has no such method, e.g. `Object.create(null)`), `valueOfPrim` is
the primitive produced by its `valueOf` method when that returns a primitive
(`none` when `valueOf` is absent or returns a non-primitive, as
`Object.prototype.valueOf` does), and `json` is the outcome of
`JSON.stringify` on the object (`.error` models a thrown exception, e.g. a
circular structure). -/
structure JSObj where
  toStr : Option (Except Unit String)
  valueOfPrim : Option String
  json : Except Unit String

/-- Tagged union of the runtime values the normalization core dispatches on:
byte buffers, `null`/`undefined`, deferred-value functions (`func ret`
models a callable whose awaited call result is `ret`), readable streams
(listed by the events they will deliver), structured objects, arrays, `Error`
instances and the stringifiable primitives. -/
inductive JSValue where
  | str (s : String)
  | num (n : Int)
  | boolV (b : Bool)
  | nullV
  | undefV
  | errV (msg : String)
  | buffer (bytes : List Nat)
  | func (ret : JSValue)
  | stream (events : List StreamEvent)
  | obj (o : JSObj)
  | arr (elems : List JSValue)

/-- lodash `_.isNil`: `null` or `undefined`. -/
def isNilJS : JSValue → Bool
  | .nullV => true
  | .undefV => true
  | _ => false

/-- lodash `_.isArray`. -/
def isArrayJS : JSValue → Bool
  | .arr _ => true
  | _ => false

/-- ASCII model of JS `String.prototype.toLowerCase`. -/
def jsToLower (s : String) : String :=
  String.mk (s.data.map (fun c =>
    if 65 ≤ c.toNat ∧ c.toNat ≤ 90 then Char.ofNat (c.toNat + 32) else c))

/-- Whitespace recognised by the model of JS `String.prototype.trim`. -/
def isWsChar (c : Char) : Bool :=
  c = ' ' ∨ c = '\t' ∨ c = '\n' ∨ c = '\r'

/-- Model of JS `String.prototype.trim`: strip whitespace from both ends. -/
def jsTrim (s : String) : String :=
  String.mk (((s.data.dropWhile isWsChar).reverse.dropWhile isWsChar).reverse)

/-- UTF-8 encoding of one character. -/
def utf8EncodeChar (c : Char) : List Nat :=
  let n := c.toNat
  if n < 128 then [n]
  else if n < 2048 then [192 + n / 64, 128 + n % 64]
  else if n < 65536 then [224 + n / 4096, 128 + (n / 64) % 64, 128 + n % 64]
  else [240 + n / 262144, 128 + (n / 4096) % 64, 128 + (n / 64) % 64, 128 + n % 64]

/-- UTF-8 bytes of a string, the default byte encoding of Node buffers. -/
def utf8Bytes (s : String) : List Nat :=
  s.data.foldr (fun c acc => utf8EncodeChar c ++ acc) []

/-- Model of `Buffer.prototype.toString()` (UTF-8 decode), restricted to the
single-byte range: only reached via `toString` on buffer values, which no
theorem below exercises beyond that shape. -/
def asciiDecode (bs : List Nat) : String :=
  String.mk (bs.map (fun b => Char.ofNat b))

/-- Model of the byte-encoding step `new Buffer(str, enc)` of Node: `none`
means no encoding given (Node defaults to UTF-8); encoding names are matched
case-insensitively but never trimmed, exactly as Node's
`normalizeEncoding` does.  The model's encoding table contains the UTF-8
family; every other name throws a `TypeError` (`.error`), which is how an
unknown encoding surfaces from Node itself. -/
def encodeJS (enc : Option String) (s : String) : Except Unit (List Nat) :=
  match enc with
  | none => .ok (utf8Bytes s)
  | some e =>
    if jsToLower e = "utf8" ∨ jsToLower e = "utf-8" then .ok (utf8Bytes s)
    else .error ()

/-- JSON string quoting for the escape classes exercised here (quote,
backslash, common control characters). -/
def jsonEscapeChar (c : Char) : String :=
  if c = '"' then "\\\""
  else if c = '\\' then "\\\\"
  else if c = '\n' then "\\n"
  else if c = '\t' then "\\t"
  else if c = '\r' then "\\r"
  else String.singleton c

/-- JSON quoting of a string literal. -/
def jsonQuote (s : String) : String :=
  "\"" ++ (s.data.map jsonEscapeChar).foldr (fun a b => a ++ b) "" ++ "\""

/-- `JSON.stringify` of a `Buffer`: buffers carry a `toJSON` method producing
`{"type":"Buffer","data":[...]}`. -/
def bufferJson (bs : List Nat) : String :=
  "\x7b\"type\":\"Buffer\",\"data\":[" ++
    String.intercalate "," (bs.map (fun b => toString b)) ++ "]\x7d"

mutual

/-- JS abstract `ToString` (the conversion performed by `'' + v`): primitives
print canonically, `Error` values use `Error.prototype.toString`, arrays join
their elements with `,` (`Array.prototype.toString`), buffers UTF-8-decode
themselves, function/stream host objects are modelled by their conventional
text, and plain objects go through `ToPrimitive` — a primitive-returning
`valueOf` first, then `toString`, and a `TypeError` (`.error`) when neither
yields a primitive or `toString` itself throws. -/
def jsToString : JSValue → Except Unit String
  | .str s => .ok s
  | .num n => .ok (toString n)
  | .boolV b => .ok (if b then "true" else "false")
  | .nullV => .ok "null"
  | .undefV => .ok "undefined"
  | .errV m => .ok ("Error: " ++ m)
  | .buffer bs => .ok (asciiDecode bs)
  | .func _ => .ok "function"
  | .stream _ => .ok "[object Object]"
  | .obj o =>
    (match o.valueOfPrim with
     | some p => .ok p
     | none =>
       match o.toStr with
       | some r => r
       | none => .error ())
  | .arr l => jsArrayJoin l

/-- `Array.prototype.join(',')`: `null`/`undefined` elements become empty
strings, every other element is converted with `jsToString`; a throwing
element conversion propagates. -/
def jsArrayJoin : List JSValue → Except Unit String
  | [] => .ok ""
  | v :: rest => do
    let h ← (match v with
             | .nullV => Except.ok ""
             | .undefV => Except.ok ""
             | x => jsToString x)
    let t ← jsArrayJoin rest
    .ok (match rest with
         | [] => h
         | _ => h ++ "," ++ t)

end

mutual

/-- `JSON.stringify` over the modelled values.  Objects report their own
serialization outcome (`JSObj.json`); `Error` instances serialize to `{}` (no
enumerable own properties); a top-level `undefined`/function yields no string
(modelled as `.error`, a case the normalizer never reaches because those
values are intercepted earlier); streams are plain host objects modelled as
`{}`. -/
def jsonStringify : JSValue → Except Unit String
  | .str s => .ok (jsonQuote s)
  | .num n => .ok (toString n)
  | .boolV b => .ok (if b then "true" else "false")
  | .nullV => .ok "null"
  | .undefV => .error ()
  | .errV _ => .ok "\x7b\x7d"
  | .buffer bs => .ok (bufferJson bs)
  | .func _ => .error ()
  | .stream _ => .ok "\x7b\x7d"
  | .obj o => o.json
  | .arr l => do
    let s ← jsonStringifyList l
    .ok ("[" ++ s ++ "]")

/-- Serialization of the elements of a JSON array, joined with `,`:
`null`/`undefined`/function elements become `null`, every other element is
serialized recursively. -/
def jsonStringifyList : List JSValue → Except Unit String
  | [] => .ok ""
  | v :: rest => do
    let h ← (match v with
             | .nullV => Except.ok "null"
             | .undefV => Except.ok "null"
             | .func _ => Except.ok "null"
             | x => jsonStringify x)
    let t ← jsonStringifyList rest
    .ok (match rest with
         | [] => h
         | _ => h ++ "," ++ t)

end

/-- Embedding of `toStringSafe(val, defaultVal)` (src/index.ts:1168):
strings are returned as-is; `null`/`undefined` yield `'' + defaultVal`; then,
inside a `try` block, `Error` values yield `'' + val.message`, values whose
`toString` member is a function yield `'' + val.toString()` (every modelled
value except a `toString`-less object), and remaining objects are
`JSON.stringify`-ed; if the `try` block throws, control falls through to the
final `return '' + val`, whose `ToPrimitive` conversion sits OUTSIDE the
`try` and can therefore itself throw (`.error`). -/
def toStringSafe (val : JSValue) (defaultVal : String) : Except Unit String :=
  match val with
  | .str s => .ok s
  | .nullV => .ok defaultVal
  | .undefV => .ok defaultVal
  | v =>
    let tryResult : Except Unit String :=
      match v with
      | .errV m => .ok m
      | .obj o =>
        (match o.toStr with
         | some r => r
         | none => o.json)
      | x => jsToString x
    match tryResult with
    | .ok s => .ok s
    | .error _ => jsToString v

/-- Embedding of `normalizeString(val)` with the default normalizer
(src/index.ts:914): `toStringSafe(val).toLowerCase().trim()`. -/
def normalizeString (val : JSValue) : Except Unit String :=
  (toStringSafe val "").map (fun s => jsTrim (jsToLower s))

/-- The encoding normalization performed at the top of `asBufferInner` and
`readAll` (src/index.ts:241,987): `enc = normalizeString(enc); if ('' ===
enc) enc = undefined`.  The parameter is typed `string | undefined`, for
which `normalizeString` never throws. -/
def normalizeEnc (enc : Option String) : Option String :=
  let n := match enc with
           | none => ""
           | some s => jsTrim (jsToLower s)
  if n = "" then none else some n

/-- Embedding of `asArray(val, removeEmpty)` (src/index.ts:214): wrap a
non-array value in a singleton array, then drop `null`/`undefined` items only
when `removeEmpty` is set.  (`toBooleanSafe` on an already-boolean argument
is the identity, so the flag is taken as `Bool` directly.) -/
def asArray (val : JSValue) (removeEmpty : Bool) : List JSValue :=
  (match val with
   | .arr l => l
   | v => [v]).filter (fun i => if removeEmpty then !isNilJS i else true)

/-- Left-to-right effectful map over a list in `Except`, the semantics of
`array.map(f)` when `f` may throw: the first exception propagates. -/
def exceptMapM {α β : Type} (f : α → Except Unit β) : List α → Except Unit (List β)
  | [] => .ok []
  | a :: rest =>
    match f a with
    | .error e => .error e
    | .ok b =>
      match exceptMapM f rest with
      | .error e => .error e
      | .ok bs => .ok (b :: bs)

/-- The command normalization of `execFile` (src/index.ts:585):
`command = toStringSafe(command)`. -/
def execFileNormCommand (command : JSValue) : Except Unit String :=
  toStringSafe command ""

/-- The argument normalization of `execFile` (src/index.ts:587):
`args = asArray(args, false).map(a => toStringSafe(a))`. -/
def execFileNormArgs (args : JSValue) : Except Unit (List String) :=
  exceptMapM (fun a => toStringSafe a "") (asArray args false)

/-- Model of `ChildProcess.ExecFileOptions` with its `env` field and a
representative sample of its other fields; the environment table is a list of
name/value pairs. -/
structure ExecFileOptions where
  env : Option (List (String × String))
  cwd : Option String
  timeout : Option Nat
  maxBuffer : Option Nat
  shell : Option String

/-- The options object `execFile` builds when the caller passes none:
`opts = {}`. -/
def emptyExecFileOptions : ExecFileOptions :=
  ⟨none, none, none, none, none⟩

/-- Embedding of the option preparation of `execFile` (src/index.ts:591):
`if (!opts) opts = {}; if (_.isNil(opts.env)) opts.env = process.env`.  The
result is the state of the (caller-supplied, mutated in place) options
object when the command is launched. -/
def prepareExecFileOptions (opts : Option ExecFileOptions)
    (processEnv : List (String × String)) : ExecFileOptions :=
  let o := match opts with
           | none => emptyExecFileOptions
           | some o => o
  match o.env with
  | none => { o with env := some processEnv }
  | some _ => o

/-- State of one `readAll` invocation (src/index.ts:986): the
`completedInvoked` guard flag, the aggregation buffer `buff`, the list of
promise settlements performed so far (`resolve`/`reject` calls, in order —
single settlement means this list never grows past one element), and
`removals`, the number of times the listener-deregistration block (the three
`tryRemoveListener` calls) has run. -/
structure ReadAllState where
  completedInvoked : Bool
  buff : List Nat
  settles : List (Except StreamErr (List Nat))
  removals : Nat

/-- The `COMPLETED` callback inside `readAll` (src/index.ts:1000): a second
invocation is a no-op; the first sets the flag, removes the three listeners
(best-effort, counted once per run), then rejects with the error or resolves
with the accumulated buffer. -/
def readAllCompleted (err : Option StreamErr) (st : ReadAllState) : ReadAllState :=
  if st.completedInvoked then st
  else
    { completedInvoked := true
      buff := st.buff
      removals := st.removals + 1
      settles := st.settles ++ [match err with
                                | some e => .error e
                                | none => .ok st.buff] }

/-- Encoding of one non-empty chunk inside the `data` listener: buffers are
appended as-is, strings go through `new Buffer(chunk, enc)`. -/
def encodeChunk (enc : Option String) : Chunk → Except Unit (List Nat)
  | .bytes l => .ok l
  | .text s => encodeJS enc s

/-- Delivery of one stream event to the listeners of `readAll`
(src/index.ts:1024): once `COMPLETED` has run, the listeners are removed, so
later events reach no handler; an `error` event with a falsy error is
ignored; a truthy error completes with that error; `data` ignores chunks of
length `< 1`, encodes textual chunks with the requested encoding and appends
to the buffer, routing an append/encoding exception through `COMPLETED`;
`end` completes successfully. -/
def readAllStep (enc : Option String) (st : ReadAllState) (ev : StreamEvent) :
    ReadAllState :=
  if st.completedInvoked then st
  else
    match ev with
    | .errorEv none => st
    | .errorEv (some e) => readAllCompleted (some (.emitted e)) st
    | .endEv => readAllCompleted none st
    | .data c =>
      if c.len < 1 then st
      else
        match encodeChunk enc c with
        | .ok bs => { st with buff := st.buff ++ bs }
        | .error _ => readAllCompleted (some .appendFailed) st

/-- Run of `readAll`'s listener set over the events a (non-nil) stream
delivers, from the initial state (`buff = Buffer.alloc(0)`,
`completedInvoked = false`). -/
def readAllRun (enc : Option String) (events : List StreamEvent) : ReadAllState :=
  events.foldl (readAllStep enc) ⟨false, [], [], 0⟩

/-- Embedding of `readAll(stream, enc)` for a non-nil stream
(src/index.ts:986): the encoding argument is normalized first (blank means
`undefined`). -/
def readAll (events : List StreamEvent) (enc : Option String) : ReadAllState :=
  readAllRun (normalizeEnc enc) events

/-- The first settlement of the `readAll` promise, if any: `none` when the
stream never delivered `end` nor a truthy `error`. -/
def readAllSettle (events : List StreamEvent) (enc : Option String) :
    Option (Except StreamErr (List Nat)) :=
  (readAll events enc).settles.head?

/-- One invocation of the callback produced by `createCompletedAction`
(src/index.ts:465): `err` is `some e` for a truthy error argument `e` and
`none` for a falsy/absent one (the code tests `if (err)`); `result` is the
second argument. -/
structure CompletedCall (ε ρ : Type) where
  err : Option ε
  result : ρ

/-- Observable state of one completion guard: the captured
`completedInvoked` flag and the invocation lists of the underlying `reject`
and `resolve` callbacks (the "call counters" of the spec). -/
structure CompletedState (ε ρ : Type) where
  completedInvoked : Bool
  rejectCalls : List ε
  resolveCalls : List ρ

/-- Embedding of the body of the callback returned by
`createCompletedAction(resolve, reject)` (src/index.ts:469): a second
invocation returns immediately; the first sets the flag, then invokes
`reject(err)` on a truthy error (when a reject callback was supplied) or
`resolve(result)` otherwise (when a resolve callback was supplied). -/
def completedActionCall {ε ρ : Type} (hasResolve hasReject : Bool)
    (st : CompletedState ε ρ) (c : CompletedCall ε ρ) : CompletedState ε ρ :=
  if st.completedInvoked then st
  else
    match c.err with
    | some e =>
      if hasReject then ⟨true, st.rejectCalls ++ [e], st.resolveCalls⟩
      else ⟨true, st.rejectCalls, st.resolveCalls⟩
    | none =>
      if hasResolve then ⟨true, st.rejectCalls, st.resolveCalls ++ [c.result]⟩
      else ⟨true, st.rejectCalls, st.resolveCalls⟩

/-- State of a freshly created completion guard: flag down, no callback ever
invoked. -/
def completedActionInit {ε ρ : Type} : CompletedState ε ρ :=
  ⟨false, [], []⟩

/-- A whole sequence of invocations of one produced `complete(err, result?)`
callable, applied in order. -/
def runCompletedAction {ε ρ : Type} (hasResolve hasReject : Bool)
    (calls : List (CompletedCall ε ρ)) : CompletedState ε ρ :=
  calls.foldl (completedActionCall hasResolve hasReject) completedActionInit

/-- How the normalizer fails: the recursion guard of `asBufferInner`
(`Maximum depth of ${maxDepth} reached!`), a stream aggregation failure, an
invalid encoding name surfacing from the byte-encoding step, a throwing
`JSON.stringify`, or a throwing string coercion. -/
inductive NormError where
  | maxDepthReached (maxDepth : Nat)
  | streamFailure (e : StreamErr)
  | encodingFailure
  | jsonFailure
  | coercionFailure
  deriving DecidableEq

/-- Outcome of the promise returned by `asBuffer`/`asBufferInner`: still
pending (the aggregated stream never settled), rejected, or resolved with a
value (a buffer, or the nil input passed through unchanged). -/
inductive NormOutcome where
  | pending
  | errored (e : NormError)
  | resolved (v : JSValue)

/-- The `_.isObject` branch of `asBufferInner` (src/index.ts:279):
`new Buffer(JSON.stringify(val), enc)`. -/
def jsonBranch (v : JSValue) (enc : Option String) : NormOutcome :=
  match jsonStringify v with
  | .error _ => .errored .jsonFailure
  | .ok s =>
    match encodeJS enc s with
    | .ok bs => .resolved (.buffer bs)
    | .error _ => .errored .encodingFailure

/-- The final "handle as string" branch of `asBufferInner`
(src/index.ts:286): `new Buffer(toStringSafe(val), enc)`. -/
def strBranch (v : JSValue) (enc : Option String) : NormOutcome :=
  match toStringSafe v "" with
  | .error _ => .errored .coercionFailure
  | .ok s =>
    match encodeJS enc s with
    | .ok bs => .resolved (.buffer bs)
    | .error _ => .errored .encodingFailure

/-- Embedding of `asBufferInner(val, enc, funcDepth, maxDepth)`
(src/index.ts:239).  The encoding is normalized at entry (blank means
`undefined`); a `funcDepth` of `none` models the `null` passed by `asBuffer`
(which compares and adds like `0`), a `maxDepth` of `none` models the
`undefined` that the `isNaN` check replaces with `63`.  Dispatch order is
that of the source: depth guard, buffer/nil pass-through, deferred-function
unwrap (call, await, recurse with `funcDepth + 1`), readable-stream
delegation to `readAll` (note: called without the encoding), `_.isObject`
JSON branch (objects, arrays and `Error` values), and finally the string
branch for the remaining primitives. -/
def asBufferInner (val : JSValue) (enc : Option String)
    (funcDepth : Option Nat) (maxDepth : Option Nat) : NormOutcome :=
  let e := normalizeEnc enc
  let d := match funcDepth with
           | none => 0
           | some d => d
  let md := match maxDepth with
            | none => 63
            | some m => m
  if d > md then .errored (.maxDepthReached md)
  else
    match val with
    | .buffer bs => .resolved (.buffer bs)
    | .nullV => .resolved .nullV
    | .undefV => .resolved .undefV
    | .func ret => asBufferInner ret e (some (d + 1)) (some md)
    | .stream evs =>
      (match readAllSettle evs none with
       | none => .pending
       | some (.ok bs) => .resolved (.buffer bs)
       | some (.error er) => .errored (.streamFailure er))
    | .obj o => jsonBranch (.obj o) e
    | .arr l => jsonBranch (.arr l) e
    | .errV m => jsonBranch (.errV m) e
    | .str s => strBranch (.str s) e
    | .num n => strBranch (.num n) e
    | .boolV b => strBranch (.boolV b) e

/-- Embedding of the public `asBuffer(val, enc, maxDepth)`
(src/index.ts:235): delegates to `asBufferInner` with a `null` `funcDepth`. -/
def asBuffer (val : JSValue) (enc : Option String) (maxDepth : Option Nat) :
    NormOutcome :=
  asBufferInner val enc none maxDepth

/-- The deferred-value chain of length `n` terminating in `v`: `n` nested
zero-argument callables, the innermost returning `v`. -/
def chainVal : Nat → JSValue → JSValue
  | 0, v => v
  | n + 1, v => .func (chainVal n v)

lemma foldl_completedActionCall_invoked {ε ρ : Type} (hR hJ : Bool) :
    ∀ (calls : List (CompletedCall ε ρ)) (st : CompletedState ε ρ),
      st.completedInvoked = true →
      calls.foldl (completedActionCall hR hJ) st = st := by
  intro calls
  induction calls with
  | nil => intro st _; rfl
  | cons c rest ih =>
    intro st h
    rw [List.foldl_cons]
    have hc : completedActionCall hR hJ st c = st := by
      simp [completedActionCall, h]
    rw [hc]
    exact ih st h

lemma completedActionCall_init_invoked {ε ρ : Type} (hR hJ : Bool)
    (c : CompletedCall ε ρ) :
    (completedActionCall hR hJ completedActionInit c).completedInvoked = true := by
  obtain ⟨oe, r⟩ := c
  cases oe <;> cases hR <;> cases hJ <;>
    simp [completedActionCall, completedActionInit]

lemma runCompletedAction_cons {ε ρ : Type} (hR hJ : Bool)
    (c : CompletedCall ε ρ) (rest : List (CompletedCall ε ρ)) :
    runCompletedAction hR hJ (c :: rest) =
      completedActionCall hR hJ completedActionInit c := by
  unfold runCompletedAction
  rw [List.foldl_cons]
  exact foldl_completedActionCall_invoked hR hJ rest _
    (completedActionCall_init_invoked hR hJ c)

/-- C1: over any sequence of invocations of the callable produced by
`createCompletedAction`, the first invocation with a truthy error invokes the
reject callback exactly once with that error (when one was supplied) and the
resolve callback never; the first invocation without an error invokes the
resolve callback exactly once with its result (when one was supplied) and the
reject callback never; all later invocations invoke neither callback, so at
most one of the two callbacks is ever invoked, and at most once. -/
theorem completedAction_single_settlement {ε ρ : Type} (hR hJ : Bool)
    (calls : List (CompletedCall ε ρ)) :
    ((runCompletedAction hR hJ calls).rejectCalls.length +
       (runCompletedAction hR hJ calls).resolveCalls.length ≤ 1) ∧
    (∀ c rest e, calls = c :: rest → c.err = some e →
       (runCompletedAction hR hJ calls).rejectCalls = (if hJ then [e] else []) ∧
       (runCompletedAction hR hJ calls).resolveCalls = []) ∧
    (∀ c rest, calls = c :: rest → c.err = none →
       (runCompletedAction hR hJ calls).resolveCalls
           = (if hR then [c.result] else []) ∧
       (runCompletedAction hR hJ calls).rejectCalls = []) := by
  cases calls with
  | nil =>
    refine ⟨?_, ?_, ?_⟩
    · simp [runCompletedAction, completedActionInit]
    · intro c rest e h; exact absurd h (by simp)
    · intro c rest h; exact absurd h (by simp)
  | cons c rest =>
    rw [runCompletedAction_cons]
    obtain ⟨oe, r⟩ := c
    refine ⟨?_, ?_, ?_⟩
    · cases oe <;> cases hR <;> cases hJ <;>
        simp [completedActionCall, completedActionInit]
    · intro c₀ rest₀ e h he
      obtain ⟨rfl, rfl⟩ : c₀ = ⟨oe, r⟩ ∧ rest₀ = rest := by
        constructor <;> injection h <;> simp_all
      rcases he with rfl
      cases hJ <;> simp [completedActionCall, completedActionInit]
    · intro c₀ rest₀ h he
      obtain ⟨rfl, rfl⟩ : c₀ = ⟨oe, r⟩ ∧ rest₀ = rest := by
        constructor <;> injection h <;> simp_all
      rcases he with rfl
      cases hR <;> simp [completedActionCall, completedActionInit]

/-- Witness for C1 at a concrete call sequence: calling the produced callback
twice — first with the truthy error `5`, then with a success carrying `7` —
invokes only the reject callback, once, with `5`. -/
theorem completedAction_single_settlement_witness :
    (@runCompletedAction Nat Nat true true [⟨some 5, 0⟩, ⟨none, 7⟩]).rejectCalls
        = [5] ∧
    (@runCompletedAction Nat Nat true true [⟨some 5, 0⟩, ⟨none, 7⟩]).resolveCalls
        = [] := by
  have h := completedAction_single_settlement true true
    [(⟨some 5, 0⟩ : CompletedCall Nat Nat), ⟨none, 7⟩]
  have h2 := h.2.1 ⟨some 5, 0⟩ [⟨none, 7⟩] 5 rfl rfl
  simpa using h2

lemma asBufferInner_chainVal (bs : List Nat) (md : Nat) :
    ∀ (n d : Nat) (enc : Option String),
      asBufferInner (chainVal n (.buffer bs)) enc (some d) (some md) =
        if d + n ≤ md then .resolved (.buffer bs)
        else .errored (.maxDepthReached md) := by
  intro n
  induction n with
  | zero =>
    intro d enc
    by_cases h : d > md
    · simp [chainVal, asBufferInner, h, show ¬(d ≤ md) by omega]
    · simp [chainVal, asBufferInner, h, show d ≤ md by omega]
  | succ n ih =>
    intro d enc
    by_cases h : d > md
    · simp [chainVal, asBufferInner, h, show ¬(d + (n + 1) ≤ md) by omega]
    · have hstep : asBufferInner (chainVal (n + 1) (.buffer bs)) enc
          (some d) (some md)
          = asBufferInner (chainVal n (.buffer bs)) (normalizeEnc enc)
              (some (d + 1)) (some md) := by
        simp [chainVal, asBufferInner, h]
      rw [hstep, ih (d + 1) (normalizeEnc enc)]
      have harith : d + 1 + n = d + (n + 1) := by omega
      rw [harith]

/-- C2: for a deferred-value chain of length `n` terminating in a buffer
`b`, `asBuffer` resolves to `b` whenever `n ≤ maxDepth` (with `maxDepth`
defaulting to 63 when unspecified) and fails with the recursion-limit error
`Maximum depth of maxDepth reached!` whenever `n > maxDepth`; that rejection
is the final outcome, never retried. -/
theorem asBuffer_chain_recursion_limit (n : Nat) (bs : List Nat)
    (enc : Option String) (maxDepth : Option Nat) :
    (n ≤ maxDepth.getD 63 →
       asBuffer (chainVal n (.buffer bs)) enc maxDepth
         = .resolved (.buffer bs)) ∧
    (maxDepth.getD 63 < n →
       asBuffer (chainVal n (.buffer bs)) enc maxDepth
         = .errored (.maxDepthReached (maxDepth.getD 63))) := by
  have h0 : asBuffer (chainVal n (.buffer bs)) enc maxDepth =
      asBufferInner (chainVal n (.buffer bs)) enc (some 0)
        (some (maxDepth.getD 63)) := by
    cases maxDepth with
    | none => cases chainVal n (JSValue.buffer bs) <;> rfl
    | some m => cases chainVal n (JSValue.buffer bs) <;> rfl
  rw [h0, asBufferInner_chainVal bs (maxDepth.getD 63) n 0 enc]
  rw [Nat.zero_add]
  constructor
  · intro h
    rw [if_pos h]
  · intro h
    rw [if_neg (Nat.not_le.mpr h)]

/-- Witness for C2: a chain of length 2 under the default depth limit
resolves to the terminal buffer, and a chain of length 64 exceeds the
default limit of 63 and fails with the recursion-limit error. -/
theorem asBuffer_chain_recursion_limit_witness :
    asBuffer (chainVal 2 (.buffer [1])) none none = .resolved (.buffer [1]) ∧
    asBuffer (chainVal 64 (.buffer [1])) none none
        = .errored (.maxDepthReached 63) := by
  refine ⟨(asBuffer_chain_recursion_limit 2 [1] none none).1 (by decide),
          (asBuffer_chain_recursion_limit 64 [1] none none).2 (by decide)⟩

/-- C3: the normalizer returns a byte buffer input unchanged (the value
itself, no conversion), and passes `null` and `undefined` through as that
same nil value, for every encoding argument and depth limit. -/
theorem asBuffer_buffer_nil_identity (bs : List Nat) (enc : Option String)
    (maxDepth : Option Nat) :
    asBuffer (.buffer bs) enc maxDepth = .resolved (.buffer bs) ∧
    asBuffer .nullV enc maxDepth = .resolved .nullV ∧
    asBuffer .undefV enc maxDepth = .resolved .undefV := by
  refine ⟨?_, ?_, ?_⟩ <;> cases maxDepth <;>
    simp [asBuffer, asBufferInner]

/-- The bytes `readAll` accumulates for a list of chunks: zero-length chunks
are skipped, every other chunk contributes its (encoded) bytes in delivery
order. -/
def aggBytes (enc : Option String) : List Chunk → List Nat
  | [] => []
  | c :: rest =>
    (if c.len < 1 then []
     else match encodeChunk enc c with
          | .ok bs => bs
          | .error _ => []) ++ aggBytes enc rest

lemma readAll_foldl_invoked (enc : Option String) :
    ∀ (evs : List StreamEvent) (st : ReadAllState),
      st.completedInvoked = true →
      evs.foldl (readAllStep enc) st = st := by
  intro evs
  induction evs with
  | nil => intro st _; rfl
  | cons ev rest ih =>
    intro st h
    rw [List.foldl_cons]
    have hc : readAllStep enc st ev = st := by
      simp [readAllStep, h]
    rw [hc]
    exact ih st h

lemma readAll_foldl_data (enc : Option String) :
    ∀ (chunks : List Chunk) (st : ReadAllState),
      st.completedInvoked = false →
      (∀ c ∈ chunks, ∃ bs, encodeChunk enc c = .ok bs) →
      (chunks.map StreamEvent.data).foldl (readAllStep enc) st =
        { st with buff := st.buff ++ aggBytes enc chunks } := by
  intro chunks
  induction chunks with
  | nil => intro st _ _; simp [aggBytes]
  | cons c rest ih =>
    intro st h hok
    rw [List.map_cons, List.foldl_cons]
    by_cases hlen : c.len < 1
    · have hst : readAllStep enc st (StreamEvent.data c) = st := by
        simp [readAllStep, h, hlen]
      rw [hst, ih st h (fun x hx => hok x (List.mem_cons_of_mem _ hx))]
      simp [aggBytes, hlen]
    · obtain ⟨bs, hbs⟩ := hok c (List.mem_cons_self _ _)
      have hst : readAllStep enc st (StreamEvent.data c) =
          { st with buff := st.buff ++ bs } := by
        simp [readAllStep, h, hlen, hbs]
      rw [hst, ih { st with buff := st.buff ++ bs } (by simp [h])
            (fun x hx => hok x (List.mem_cons_of_mem _ hx))]
      simp [aggBytes, hlen, hbs, List.append_assoc]

/-- C4: a stream that delivers a finite sequence of chunks and then `end`
makes `readAll` resolve exactly once, with the concatenation of the chunks'
bytes in delivery order — zero-length chunks skipped, textual chunks encoded
with the (normalized) requested encoding first — and run the
listener-removal block exactly once.  The hypothesis says every chunk
encodes without throwing, i.e. the requested encoding is valid for the
textual chunks delivered. -/
theorem readAll_aggregates_chunks (enc : Option String) (chunks : List Chunk)
    (h : ∀ c ∈ chunks, ∃ bs, encodeChunk (normalizeEnc enc) c = .ok bs) :
    (readAll (chunks.map StreamEvent.data ++ [StreamEvent.endEv]) enc).settles
        = [.ok (aggBytes (normalizeEnc enc) chunks)] ∧
    (readAll (chunks.map StreamEvent.data ++ [StreamEvent.endEv]) enc).removals
        = 1 := by
  unfold readAll readAllRun
  rw [List.foldl_append, readAll_foldl_data (normalizeEnc enc) chunks _ rfl h]
  simp [readAllStep, readAllCompleted]

/-- Witness for C4: the stream emitting `"ab"`, `"cd"`, `"ef"` then ending
resolves exactly once with the bytes of `"abcdef"`, and the three listeners
are removed once. -/
theorem readAll_aggregates_chunks_witness :
    (readAll ([Chunk.text "ab", Chunk.text "cd", Chunk.text "ef"].map
        StreamEvent.data ++ [StreamEvent.endEv]) none).settles
      = [.ok [97, 98, 99, 100, 101, 102]] ∧
    (readAll ([Chunk.text "ab", Chunk.text "cd", Chunk.text "ef"].map
        StreamEvent.data ++ [StreamEvent.endEv]) none).removals = 1 := by
  have h := readAll_aggregates_chunks none
    [Chunk.text "ab", Chunk.text "cd", Chunk.text "ef"]
    (by intro c hc; fin_cases hc <;> exact ⟨_, rfl⟩)
  simpa using h

/-- C5: a stream that emits a truthy `error` event (after any prefix of
successfully appended data chunks) makes `readAll` reject exactly once with
that error, passed through unchanged; it never resolves, ignores every
later event, and runs the listener-removal block exactly once. -/
theorem readAll_error_rejects (enc : Option String) (pre : List Chunk)
    (e : String) (post : List StreamEvent)
    (h : ∀ c ∈ pre, ∃ bs, encodeChunk (normalizeEnc enc) c = .ok bs) :
    (readAll (pre.map StreamEvent.data ++ StreamEvent.errorEv (some e) :: post)
        enc).settles = [.error (.emitted e)] ∧
    (readAll (pre.map StreamEvent.data ++ StreamEvent.errorEv (some e) :: post)
        enc).removals = 1 := by
  unfold readAll readAllRun
  rw [List.foldl_append, readAll_foldl_data (normalizeEnc enc) pre _ rfl h]
  rw [List.foldl_cons]
  have hstep : readAllStep (normalizeEnc enc)
      { (⟨false, [], [], 0⟩ : ReadAllState) with
          buff := [] ++ aggBytes (normalizeEnc enc) pre }
      (StreamEvent.errorEv (some e))
      = ⟨true, aggBytes (normalizeEnc enc) pre, [.error (.emitted e)], 1⟩ := by
    simp [readAllStep, readAllCompleted]
  rw [hstep, readAll_foldl_invoked (normalizeEnc enc) post _ rfl]
  exact ⟨rfl, rfl⟩

/-- Witness for C5: a stream delivering one non-empty buffer chunk and then
an error `"boom"` (followed by a spurious `end`) rejects once with exactly
that error and removes its listeners once. -/
theorem readAll_error_rejects_witness :
    (readAll ([Chunk.bytes [1]].map StreamEvent.data ++
        StreamEvent.errorEv (some "boom") :: [StreamEvent.endEv]) none).settles
      = [.error (.emitted "boom")] ∧
    (readAll ([Chunk.bytes [1]].map StreamEvent.data ++
        StreamEvent.errorEv (some "boom") :: [StreamEvent.endEv]) none).removals
      = 1 := by
  exact readAll_error_rejects none [Chunk.bytes [1]] "boom" [StreamEvent.endEv]
    (by intro c hc; fin_cases hc; exact ⟨_, rfl⟩)

lemma exceptMapM_ok_props {α β : Type} (f : α → Except Unit β) :
    ∀ (l : List α) (rs : List β), exceptMapM f l = .ok rs →
      rs.length = l.length ∧
      ∀ i (h1 : i < l.length) (h2 : i < rs.length),
        f (l.get ⟨i, h1⟩) = .ok (rs.get ⟨i, h2⟩) := by
  intro l
  induction l with
  | nil =>
    intro rs h
    simp only [exceptMapM] at h
    injection h with h
    subst h
    refine ⟨rfl, ?_⟩
    intro i h1 _
    exact absurd h1 (by simp)
  | cons a rest ih =>
    intro rs h
    simp only [exceptMapM] at h
    cases hfa : f a with
    | error e => rw [hfa] at h; exact absurd h (by simp)
    | ok b =>
      rw [hfa] at h
      cases hrec : exceptMapM f rest with
      | error e => rw [hrec] at h; exact absurd h (by simp)
      | ok bs =>
        rw [hrec] at h
        injection h with h
        subst h
        obtain ⟨hlen, hget⟩ := ih bs hrec
        refine ⟨by simp [hlen], ?_⟩
        intro i h1 h2
        cases i with
        | zero => simpa using hfa
        | succ j =>
          have := hget j (by simpa using h1) (by simpa using h2)
          simpa using this

/-- Counterexample to C6: for a nil (`undefined`) `args` argument,
`execFile`'s normalization `asArray(args, false).map(toStringSafe)` wraps
the nil value in a singleton array without removing it (the `removeEmpty`
flag is `false`), producing the one-element argument list `[""]` — not the
empty argument list the claim states. -/
theorem execFile_args_counterexample :
    execFileNormArgs JSValue.undefV = .ok [""] ∧
    execFileNormArgs JSValue.undefV ≠ .ok [] := by
  have hval : execFileNormArgs JSValue.undefV = .ok [""] := rfl
  refine ⟨hval, fun h => ?_⟩
  rw [hval] at h
  simp at h

/-- C6 (amended): `execFile` coerces `command` with `toStringSafe`, coerces
each element of an array `args` with `toStringSafe` preserving argument
order and count exactly (no empty-removal), and normalizes a nil (`null` or
`undefined`) `args` to the single-element argument list `[""]` — the nil
value is wrapped in a singleton array and string-coerced, not dropped. -/
theorem execFile_args_normalization (cmd : JSValue) (elems : List JSValue)
    (ss : List String) (h : execFileNormArgs (.arr elems) = .ok ss) :
    execFileNormCommand cmd = toStringSafe cmd "" ∧
    ss.length = elems.length ∧
    (∀ i (h1 : i < elems.length) (h2 : i < ss.length),
        toStringSafe (elems.get ⟨i, h1⟩) "" = .ok (ss.get ⟨i, h2⟩)) ∧
    execFileNormArgs JSValue.nullV = .ok [""] ∧
    execFileNormArgs JSValue.undefV = .ok [""] := by
  have hargs : execFileNormArgs (.arr elems)
      = exceptMapM (fun a => toStringSafe a "") elems := by
    simp [execFileNormArgs, asArray]
  rw [hargs] at h
  obtain ⟨hlen, hget⟩ := exceptMapM_ok_props (fun a => toStringSafe a "") elems ss h
  exact ⟨rfl, hlen, hget, rfl, rfl⟩

/-- Witness for C6 (amended) at the argument array `[2, "a"]`, which
normalizes to `["2", "a"]` with order and count preserved. -/
theorem execFile_args_normalization_witness :
    execFileNormCommand (JSValue.str "git") = toStringSafe (JSValue.str "git") "" ∧
    (["2", "a"] : List String).length
        = ([JSValue.num 2, JSValue.str "a"] : List JSValue).length ∧
    execFileNormArgs JSValue.nullV = .ok [""] := by
  have h := execFile_args_normalization (JSValue.str "git")
    [JSValue.num 2, JSValue.str "a"] ["2", "a"] rfl
  exact ⟨h.1, h.2.1, h.2.2.2.1⟩

/-- Counterexample to C7: the array-like value `[1]` is matched by the
`_.isObject` branch of `asBufferInner` and JSON-serialized, producing the
buffer of the text `[1]` — not the buffer of its safe string coercion `1`
that the claim predicts for array-like values. -/
theorem asBuffer_array_counterexample :
    asBuffer (.arr [.num 1]) none none
        = .resolved (.buffer (utf8Bytes "[1]")) ∧
    toStringSafe (.arr [.num 1]) "" = .ok "1" ∧
    asBuffer (.arr [.num 1]) none none
        ≠ .resolved (.buffer (utf8Bytes "1")) := by
  refine ⟨rfl, rfl, fun h => ?_⟩
  have h2 := (show asBuffer (.arr [.num 1]) none none
      = .resolved (.buffer (utf8Bytes "[1]")) from rfl).symm.trans h
  simp only [NormOutcome.resolved.injEq, JSValue.buffer.injEq] at h2
  exact absurd h2 (by decide)

/-- C7 (amended): every value of the object class — structured objects and
array-like values alike — is JSON-serialized by the normalizer and the JSON
text encoded with the requested encoding, so the produced buffer is exactly
the encoding of the value's JSON serialization; only non-object primitives
fall through to safe string coercion. -/
theorem asBuffer_object_json (enc : Option String) (o : JSObj)
    (l : List JSValue) (s t : String) (bs bt : List Nat)
    (ho : o.json = Except.ok s)
    (hb : encodeJS (normalizeEnc enc) s = .ok bs)
    (hl : jsonStringify (.arr l) = Except.ok t)
    (hb2 : encodeJS (normalizeEnc enc) t = .ok bt) :
    asBuffer (.obj o) enc none = .resolved (.buffer bs) ∧
    asBuffer (.arr l) enc none = .resolved (.buffer bt) := by
  constructor
  · simp [asBuffer, asBufferInner, jsonBranch, jsonStringify, ho, hb]
  · simp [asBuffer, asBufferInner, jsonBranch, hl, hb2]

/-- Witness for C7 (amended): a plain object serializing to `\x7b\x7d` and the
array `[1]` both produce the UTF-8 buffer of their JSON text under the
default encoding. -/
theorem asBuffer_object_json_witness :
    asBuffer (.obj ⟨none, none, Except.ok "\x7b\x7d"⟩) none none
        = .resolved (.buffer (utf8Bytes "\x7b\x7d")) ∧
    asBuffer (.arr [.num 1]) none none
        = .resolved (.buffer (utf8Bytes "[1]")) :=
  asBuffer_object_json none ⟨none, none, Except.ok "\x7b\x7d"⟩
    [.num 1] "\x7b\x7d" "[1]" (utf8Bytes "\x7b\x7d") (utf8Bytes "[1]")
    rfl rfl rfl rfl

/-- Counterexample to C8: the non-blank encoding string `" utf8 "` is not
passed verbatim to the byte-encoding step — passed verbatim it would make
that step throw (Node matches encoding names case-insensitively but never
trims them), yet the normalizer succeeds, because `asBufferInner` lowercases
and trims the encoding to `"utf8"` before the byte-encoding step. -/
theorem asBuffer_encoding_counterexample :
    encodeJS (some " utf8 ") "x" = .error () ∧
    asBuffer (.str "x") (some " utf8 ") none
        = .resolved (.buffer (utf8Bytes "x")) :=
  ⟨rfl, rfl⟩

/-- C8 (amended): an absent, empty, or whitespace-only encoding argument
means "use the platform default"; every other encoding string is lowercased
and trimmed, and that normalized name is passed without validation to the
byte-encoding step, so an invalid encoding name surfaces as an error from
that step itself and not earlier. -/
theorem asBuffer_encoding_normalization (enc s : String) :
    (jsTrim (jsToLower enc) = "" →
       asBuffer (.str s) (some enc) none = asBuffer (.str s) none none) ∧
    (jsTrim (jsToLower enc) ≠ "" →
       asBuffer (.str s) (some enc) none
         = match encodeJS (some (jsTrim (jsToLower enc))) s with
           | .ok bs => .resolved (.buffer bs)
           | .error _ => .errored .encodingFailure) := by
  constructor
  · intro h
    simp [asBuffer, asBufferInner, normalizeEnc, strBranch, toStringSafe, h]
  · intro h
    simp [asBuffer, asBufferInner, normalizeEnc, strBranch, toStringSafe, h]

/-- Witness for C8 (amended): a whitespace-only encoding behaves like the
absent encoding, and `" UTF8 "` is normalized to `"utf8"` before reaching
the byte-encoding step. -/
theorem asBuffer_encoding_normalization_witness :
    asBuffer (.str "x") (some "   ") none = asBuffer (.str "x") none none ∧
    asBuffer (.str "x") (some " UTF8 ") none
      = match encodeJS (some (jsTrim (jsToLower " UTF8 "))) "x" with
        | .ok bs => .resolved (.buffer bs)
        | .error _ => .errored .encodingFailure :=
  ⟨(asBuffer_encoding_normalization "   " "x").1 rfl,
   (asBuffer_encoding_normalization " UTF8 " "x").2 (by decide)⟩

/-- Counterexample to C9: `toStringSafe` can throw.  For an object whose
`toString` method throws and whose `valueOf` yields no primitive, the `try`
block's `'' + val.toString()` throws, and the fall-back `return '' + val`
sits outside the `try` block and re-runs the same throwing conversion, so
the exception escapes `toStringSafe`. -/
theorem toStringSafe_counterexample :
    toStringSafe (.obj ⟨some (Except.error ()), none, Except.ok "\x7b\x7d"⟩) ""
        = .error () := rfl

/-- C9 (amended): `toStringSafe` returns a string without throwing for every
value whose own primitive string conversion does not throw: strings are
returned as-is, nil yields the default value, `Error` values yield their
message text, objects with a working custom stringification are asked for
it, objects without one are JSON-serialized, and a failing `try`-block
conversion falls back to plain string concatenation — which itself throws
exactly in the case the original claim overlooks, namely when the value's
own `ToPrimitive` conversion throws. -/
theorem toStringSafe_characterization (v : JSValue) (d s m : String)
    (o : JSObj) :
    (toStringSafe (.str s) d = .ok s) ∧
    (toStringSafe .nullV d = .ok d ∧ toStringSafe .undefV d = .ok d) ∧
    (toStringSafe (.errV m) d = .ok m) ∧
    (∀ r, o.toStr = some r → (∃ t, r = .ok t) →
        toStringSafe (.obj o) d = r) ∧
    (o.toStr = none → (∃ t, o.json = .ok t) →
        toStringSafe (.obj o) d = o.json) ∧
    (toStringSafe v d = .error () → jsToString v = .error ()) := by
  refine ⟨rfl, ⟨rfl, rfl⟩, rfl, ?_, ?_, ?_⟩
  · rintro r hts ⟨t, rfl⟩
    simp [toStringSafe, hts]
  · rintro hts ⟨t, hj⟩
    simp [toStringSafe, hts, hj]
  · intro h
    cases v with
    | str a => simp [toStringSafe] at h
    | nullV => simp [toStringSafe] at h
    | undefV => simp [toStringSafe] at h
    | errV a => simp [toStringSafe] at h
    | num a => simp [toStringSafe, jsToString] at h
    | boolV a => simp [toStringSafe, jsToString] at h
    | buffer a => simp [toStringSafe, jsToString] at h
    | func a => simp [toStringSafe, jsToString] at h
    | stream a => simp [toStringSafe, jsToString] at h
    | obj o2 =>
      simp only [toStringSafe] at h
      cases hts : o2.toStr with
      | some r =>
        cases r with
        | ok t => rw [hts] at h; simp at h
        | error e => rw [hts] at h; simpa using h
      | none =>
        cases hj : o2.json with
        | ok t => rw [hts, hj] at h; simp at h
        | error e => rw [hts, hj] at h; simpa using h
    | arr l =>
      simp only [toStringSafe] at h
      cases hj : jsToString (.arr l) with
      | ok t => rw [hj] at h; simp at h
      | error e =>
        cases e
        first
        | exact hj
        | rfl

/-- Witness for C9 (amended): an object with a working `toString` yields its
custom text, and an `Error` value yields its message. -/
theorem toStringSafe_characterization_witness :
    toStringSafe (.obj ⟨some (Except.ok "hi"), none, Except.ok "\x7b\x7d"⟩) ""
        = Except.ok "hi" ∧
    toStringSafe (.errV "boom") "" = .ok "boom" := by
  have h := toStringSafe_characterization (.num 0) "" "s" "boom"
    ⟨some (Except.ok "hi"), none, Except.ok "\x7b\x7d"⟩
  exact ⟨h.2.2.2.1 (Except.ok "hi") rfl ⟨"hi", rfl⟩, h.2.2.1⟩

/-- C10: when the caller supplies an options object whose `env` field is
nil, `execFile` launches the command with that same options object updated
in place so that `env` holds the ambient process environment; no other
field of the caller's options object is modified. -/
theorem execFile_opts_env_default (o : ExecFileOptions)
    (penv : List (String × String)) (h : o.env = none) :
    prepareExecFileOptions (some o) penv = { o with env := some penv } ∧
    (prepareExecFileOptions (some o) penv).env = some penv ∧
    (prepareExecFileOptions (some o) penv).cwd = o.cwd ∧
    (prepareExecFileOptions (some o) penv).timeout = o.timeout ∧
    (prepareExecFileOptions (some o) penv).maxBuffer = o.maxBuffer ∧
    (prepareExecFileOptions (some o) penv).shell = o.shell := by
  have hmain : prepareExecFileOptions (some o) penv
      = { o with env := some penv } := by
    simp [prepareExecFileOptions, h]
  exact ⟨hmain, by rw [hmain], by rw [hmain], by rw [hmain], by rw [hmain],
         by rw [hmain]⟩

/-- Witness for C10: an options object with nil `env`, a working directory
and a timeout gets exactly its `env` field filled with the process
environment. -/
theorem execFile_opts_env_default_witness :
    prepareExecFileOptions (some ⟨none, some "/tmp", some 5, none, some "sh"⟩)
        [("PATH", "/bin")]
      = ⟨some [("PATH", "/bin")], some "/tmp", some 5, none, some "sh"⟩ :=
  (execFile_opts_env_default ⟨none, some "/tmp", some 5, none, some "sh"⟩
    [("PATH", "/bin")] rfl).1
